import Mathlib

/-
Verification development for the argument-wrapper core of SimpleParsing
(src/simple_parsing/wrappers.py).

The Python module defines two classes:

  * FieldWrapper      — wraps one dataclass field, derives its argparse
                        option dictionary (`_get_arg_options`), caches it
                        (`arg_options`), and carries the mutable
                        `multiple` / `required` flags;
  * DataclassWrapper  — wraps a dataclass, owns the FieldWrappers, cascades
                        `prefix` / `required` / `multiple` to them, extracts
                        per-instance constructor arguments
                        (`get_constructor_arguments`) and materializes
                        instances (`instantiate_dataclass`).

The shallow embedding below mirrors that code: Python runtime values become
the inductive `Value`, the dynamic type tests (`dataclasses.is_dataclass`,
`utils.is_tuple_or_list`, `enum.Enum in mro()`, `f.type is bool`, ...) become
a dispatch over `FieldType`, argparse option dictionaries become the record
`ArgOptions` whose entries are `Option`-valued (absent = `none`), Python
dicts of argument values become association lists with dict update
semantics, default factories are modelled by the (pure) value they return,
and every `assert` / `raise` becomes an `Except ParseError` error value.
A constructed dataclass instance is modelled by its dict of constructor
keyword arguments.
-/

set_option linter.unusedVariables false

namespace SimpleParsing

/-- Python runtime values that flow through the argument pipeline. -/
inductive Value where
  | none : Value
  | bool (b : Bool) : Value
  | int (n : Int) : Value
  | str (s : String) : Value
  | enumMember (name : String) : Value
  | list (xs : List Value) : Value
  | tuple (xs : List Value) : Value

/-- Python truthiness of a `Value` (used by `not default_value` in the
boolean branch of `instantiate_dataclass`). -/
def pyTruthy : Value → Bool
  | Value.none => false
  | Value.bool b => b
  | Value.int n => n != 0
  | Value.str s => s != ""
  | Value.enumMember _ => true
  | Value.list xs => !xs.isEmpty
  | Value.tuple xs => !xs.isEmpty

/-- The category of a declared field type, as discriminated by the dynamic
checks in wrappers.py: `dataclasses.is_dataclass(f.type)`,
`utils.is_tuple_or_list_of_dataclasses(f.type)`, `enum.Enum in f.type.mro()`
(an enumeration carries its ordered member names),
`utils.is_tuple_or_list(f.type)` (with `utils.is_tuple` / `utils.is_list`
distinguishing the two in `instantiate_dataclass`), and `f.type is bool`;
anything else is a plain scalar type. -/
inductive FieldType where
  | scalar : FieldType
  | boolean : FieldType
  | enumeration (members : List String) : FieldType
  | listOrTuple (isTuple : Bool) : FieldType
  | dataclassT : FieldType
  | listOfDataclasses : FieldType
deriving DecidableEq

/-- The converter stored under the "type" key of an option dictionary:
either the declared type itself (`f.type`), `str`, `utils.str2bool`,
`utils.get_argparse_container_type(f.type)`, or
`utils._parse_multiple_containers(f.type)`. -/
inductive ArgType where
  | declared (t : FieldType) : ArgType
  | strDecoder : ArgType
  | str2bool : ArgType
  | containerElem : ArgType
  | parseMultipleContainers : ArgType
deriving DecidableEq

/-- The argparse option dictionary built by `FieldWrapper._get_arg_options`.
Exactly the keys {type, help, default, required, choices, nargs} are ever
written, so the dict is modelled as a record of `Option`s; a `none` entry
means the key is absent. The empty dict has every entry absent. -/
structure ArgOptions where
  type : Option ArgType := Option.none
  help : Option String := Option.none
  default : Option Value := Option.none
  required : Option Bool := Option.none
  choices : Option (List String) := Option.none
  nargs : Option String := Option.none

/-- The empty option dictionary (Python `{}`), which is falsy. -/
def emptySpec : ArgOptions := {}

/-- Python truthiness of the option dictionary: a dict is falsy exactly when
it has no entries. -/
def ArgOptions.isEmptyDict (o : ArgOptions) : Bool :=
  o.type.isNone && o.help.isNone && o.default.isNone &&
  o.required.isNone && o.choices.isNone && o.nargs.isNone

/-- The docstring data returned by the external collaborator
`docstring.get_attribute_docstring`; a field holds the empty string when the
corresponding comment is missing (Python checks its truthiness). -/
structure AttributeDocString where
  comment_above : String := ""
  comment_inline : String := ""
  docstring_below : String := ""
deriving DecidableEq

/-- One dataclass field's metadata, as read off `dataclasses.Field`:
`default` is `none` when the declared default is `dataclasses.MISSING`;
`default_factory` models the factory, when declared, by the (pure) value a
call to it returns; `init` says whether the field participates in the
generated constructor. -/
structure Field where
  name : String
  type : FieldType
  default : Option Value := Option.none
  default_factory : Option Value := Option.none
  init : Bool := true

/-- The help-text selection of `_get_arg_options` (lines 84-90):
`docstring_below` wins over `comment_above` over `comment_inline`, each
tested for Python truthiness (non-empty string). -/
def docHelp (doc : Option AttributeDocString) (o : ArgOptions) : ArgOptions :=
  match doc with
  | Option.none => o
  | Option.some d =>
    if d.docstring_below ≠ "" then { o with help := Option.some d.docstring_below }
    else if d.comment_above ≠ "" then { o with help := Option.some d.comment_above }
    else if d.comment_inline ≠ "" then { o with help := Option.some d.comment_inline }
    else o

/-- The default/required step of `_get_arg_options` (lines 92-97): a value
default wins, else the factory result, else `required = True`. -/
def defaultRequiredStep (f : Field) (o : ArgOptions) : ArgOptions :=
  match f.default with
  | Option.some v => { o with default := Option.some v }
  | Option.none =>
    match f.default_factory with
    | Option.some v => { o with default := Option.some v }
    | Option.none => { o with required := Option.some true }

/-- The type-directed step of `_get_arg_options` (lines 99-127): the
enumeration branch (choices, `type = str`, default normalized to the member
name), the list/tuple branch (`nargs = "*"`, element converter or
multiple-container parser), and the boolean branch (default recomputed from
the declared default only, `type = str2bool`, `nargs` of `"?"` / `"*"`,
`required = True` when the declared default is missing). -/
def typeDispatchStep (f : Field) (multiple : Bool) (o : ArgOptions) : ArgOptions :=
  match f.type with
  | FieldType.enumeration members =>
    let o2 := { o with choices := Option.some members, type := Option.some ArgType.strDecoder }
    match o2.default with
    | Option.some (Value.enumMember n) => { o2 with default := Option.some (Value.str n) }
    | _ => o2
  | FieldType.listOrTuple _ =>
    let o2 := { o with nargs := Option.some "*" }
    if multiple then { o2 with type := Option.some ArgType.parseMultipleContainers }
    else { o2 with type := Option.some ArgType.containerElem }
  | FieldType.boolean =>
    let o2 := { o with
      default := Option.some (match f.default with
        | Option.some v => v
        | Option.none => Value.bool false),
      type := Option.some ArgType.str2bool,
      nargs := Option.some (if multiple then "*" else "?") }
    match f.default with
    | Option.none => { o2 with required := Option.some true }
    | Option.some _ => o2
  | _ => o

/-- The body of `_get_arg_options` before the multiple-mode finalization:
base `type` entry, help selection, default/required step, type dispatch. -/
def argOptionsBody (f : Field) (doc : Option AttributeDocString) (multiple : Bool) : ArgOptions :=
  typeDispatchStep f multiple
    (defaultRequiredStep f
      (docHelp doc { type := Option.some (ArgType.declared f.type) }))

/-- The option dictionary right before the multiple-mode finalization
(lines 68-127 of wrappers.py, with the early empty returns for non-init,
dataclass and list-of-dataclass fields). -/
def argOptionsPre (f : Field) (doc : Option AttributeDocString) (multiple : Bool) : ArgOptions :=
  if f.init = false then emptySpec
  else if f.type = FieldType.dataclassT then emptySpec
  else if f.type = FieldType.listOfDataclasses then emptySpec
  else argOptionsBody f doc multiple

/-- The multiple-mode finalization (lines 129-135): a required field gets
`nargs = "+"`; otherwise `nargs = "*"` and the existing default is wrapped
in a single-element list. -/
def multipleFinalize (o : ArgOptions) : ArgOptions :=
  if o.required.getD false then { o with nargs := Option.some "+" }
  else { o with nargs := Option.some "*",
                default := Option.some (Value.list [o.default.getD Value.none]) }

/-- `FieldWrapper._get_arg_options` in full: the early empty returns, the
body, and — only in multiple mode — the finalization. -/
def getArgOptions (f : Field) (doc : Option AttributeDocString) (multiple : Bool) : ArgOptions :=
  if f.init = false then emptySpec
  else if f.type = FieldType.dataclassT then emptySpec
  else if f.type = FieldType.listOfDataclasses then emptySpec
  else if multiple then multipleFinalize (argOptionsBody f doc multiple)
  else argOptionsBody f doc multiple

/-- The mutable state of a `FieldWrapper`: the wrapped field, the name
prefix cascaded from the owner, the lazily-filled `_arg_options` cache
(initially the empty dict), the docstring fetched in `__post_init__`, and
the `_multiple` / `_required` backing fields. -/
structure FieldWrapper where
  field : Field
  namePfx : String := ""
  _arg_options : ArgOptions := {}
  _docstring : Option AttributeDocString := Option.none
  _multiple : Bool := false
  _required : Option Bool := Option.none

/-- `FieldWrapper.name`: the prefixed argument name. -/
def FieldWrapper.name (fw : FieldWrapper) : String :=
  fw.namePfx ++ fw.field.name

/-- The `required` property getter: the explicit override wins when set,
otherwise the field is required exactly when it has neither a value default
nor a factory default. -/
def FieldWrapper.requiredGet (fw : FieldWrapper) : Bool :=
  match fw._required with
  | Option.some b => b
  | Option.none => fw.field.default.isNone && fw.field.default_factory.isNone

/-- The `required` property setter on a `FieldWrapper`. -/
def FieldWrapper.setRequired (fw : FieldWrapper) (b : Bool) : FieldWrapper :=
  { fw with _required := Option.some b }

/-- The `multiple` property setter on a `FieldWrapper`: a changed value
clears the `_arg_options` cache before being stored. -/
def FieldWrapper.setMultiple (fw : FieldWrapper) (b : Bool) : FieldWrapper :=
  if b ≠ fw._multiple then { fw with _arg_options := emptySpec, _multiple := b }
  else { fw with _multiple := b }

/-- The `arg_options` property: return the cache when it is a truthy
(non-empty) dict, otherwise derive, store and return. The call returns the
value together with the updated wrapper state. -/
def FieldWrapper.argOptionsGet (fw : FieldWrapper) : ArgOptions × FieldWrapper :=
  if fw._arg_options.isEmptyDict then
    let o := getArgOptions fw.field fw._docstring fw._multiple
    (o, { fw with _arg_options := o })
  else (fw._arg_options, fw)

/-- `arg_options` again, additionally reporting whether this access took
the derivation branch (`true`) or returned the stored dict (`false`) —
same branches as `FieldWrapper.argOptionsGet`, nothing else changed. -/
def FieldWrapper.argOptionsGetTraced (fw : FieldWrapper) :
    (ArgOptions × FieldWrapper) × Bool :=
  if fw._arg_options.isEmptyDict then
    let o := getArgOptions fw.field fw._docstring fw._multiple
    ((o, { fw with _arg_options := o }), true)
  else ((fw._arg_options, fw), false)

/-- Builds a `FieldWrapper` the way `DataclassWrapper.__post_init__` does:
fresh caches and flags, the docstring supplied by the collaborator. -/
def mkFieldWrapper (f : Field) (doc : Option AttributeDocString) (pfx : String) : FieldWrapper :=
  { field := f, namePfx := pfx, _docstring := doc }

/-- The state of a `DataclassWrapper`: the owned field wrappers in
declaration order and the backing fields of its cascading properties. -/
structure DataclassWrapper where
  fields : List FieldWrapper
  _multiple : Bool := false
  _required : Bool := false
  argNamesPfx : String := ""

/-- `DataclassWrapper.__post_init__`: one wrapper per declared field, in
declaration order, all carrying the initial prefix. -/
def mkDataclassWrapper (fieldsAndDocs : List (Field × Option AttributeDocString))
    (pfx : String) : DataclassWrapper :=
  { fields := fieldsAndDocs.map (fun p => mkFieldWrapper p.1 p.2 pfx),
    argNamesPfx := pfx }

/-- The `required` setter on a `DataclassWrapper`: stores the value and
cascades it to every owned wrapper's override. -/
def DataclassWrapper.setRequired (dw : DataclassWrapper) (b : Bool) : DataclassWrapper :=
  { dw with _required := b,
            fields := dw.fields.map (fun fw => fw.setRequired b) }

/-- The `multiple` setter on a `DataclassWrapper`: cascades to every owned
wrapper, then stores the value. -/
def DataclassWrapper.setMultiple (dw : DataclassWrapper) (b : Bool) : DataclassWrapper :=
  { dw with fields := dw.fields.map (fun fw => fw.setMultiple b),
            _multiple := b }

/-- The `prefix` setter on a `DataclassWrapper`: stores the value and
cascades it to every owned wrapper's name prefix. -/
def DataclassWrapper.setPfx (dw : DataclassWrapper) (p : String) : DataclassWrapper :=
  { dw with argNamesPfx := p,
            fields := dw.fields.map (fun fw => { fw with namePfx := p }) }

/-- A Python dict of argument values, keyed by argument name. -/
abbrev Dict := List (String × Value)

/-- Dict read: the binding for `k`, if present. -/
def dictLookup (d : Dict) (k : String) : Option Value :=
  match d with
  | [] => Option.none
  | (k2, v) :: rest => if k2 = k then Option.some v else dictLookup rest k

/-- Dict write `d[k] = v`: replaces the value in place when the key exists
(keeping its position, as Python dicts do), otherwise appends the binding. -/
def dictInsert (d : Dict) (k : String) (v : Value) : Dict :=
  match d with
  | [] => [(k, v)]
  | (k2, v2) :: rest =>
    if k2 = k then (k2, v) :: rest else (k2, v2) :: dictInsert rest k v

/-- The failure modes of the wrapper core: `assert` failures and explicitly
raised errors. `inconsistentArgument` carries the field name, the length
actually supplied and the requested instance count, mirroring the message
of `utils.InconsistentArgumentError`. -/
inductive ParseError where
  | contractViolation (msg : String) : ParseError
  | inconsistentArgument (fieldName : String) (actual : Nat) (numInstances : Nat) : ParseError
  | keyError (k : String) : ParseError
  | runtimeError (msg : String) : ParseError
deriving DecidableEq

/-- The body of the inner loop of `get_constructor_arguments` for one field
of instance `i`: skip non-init and dataclass fields, reject containers of
dataclasses, look the raw value up under the prefixed name, and in multiple
mode broadcast a length-1 list, distribute a length-`num` list, or raise
`InconsistentArgumentError`; outside multiple mode copy the value through.
The produced binding is keyed by the unprefixed field name. -/
def processField (multiple : Bool) (num i : Nat) (args : Dict) (acc : Dict)
    (fw : FieldWrapper) : Except ParseError Dict :=
  if fw.field.init = false then Except.ok acc
  else if fw.field.type = FieldType.dataclassT then Except.ok acc
  else if fw.field.type = FieldType.listOfDataclasses then
    Except.error (ParseError.contractViolation "Should not have been allowed")
  else
    match dictLookup args fw.name with
    | Option.none => Except.error (ParseError.contractViolation "field is not in the arguments dict")
    | Option.some value =>
      if multiple then
        match value with
        | Value.list xs =>
          if xs.length = 1 then
            Except.ok (dictInsert acc fw.field.name (xs.getD 0 Value.none))
          else if xs.length = num then
            Except.ok (dictInsert acc fw.field.name (xs.getD i Value.none))
          else
            Except.error (ParseError.inconsistentArgument fw.field.name xs.length num)
        | _ => Except.error (ParseError.contractViolation "all fields should have gotten a list default value")
      else Except.ok (dictInsert acc fw.field.name value)

/-- The inner loop of `get_constructor_arguments`: fold `processField` over
the wrappers in declaration order, stopping at the first failure. -/
def processFields (multiple : Bool) (num i : Nat) (args : Dict) :
    List FieldWrapper → Dict → Except ParseError Dict
  | [], acc => Except.ok acc
  | fw :: rest, acc =>
    match processField multiple num i args acc fw with
    | Except.ok acc2 => processFields multiple num i args rest acc2
    | Except.error e => Except.error e

/-- The outer loop `for i in range(num)`: build the argument dict of each
instance in turn, starting each from the empty dict. `i` is the next index
and `k` the number of instances still to build. -/
def buildInstances (multiple : Bool) (num : Nat) (args : Dict)
    (fields : List FieldWrapper) : Nat → Nat → Except ParseError (List Dict)
  | _, 0 => Except.ok []
  | i, k + 1 =>
    match processFields multiple num i args fields [] with
    | Except.error e => Except.error e
    | Except.ok d =>
      match buildInstances multiple num args fields (i + 1) k with
      | Except.error e => Except.error e
      | Except.ok ds => Except.ok (d :: ds)

/-- `DataclassWrapper.get_constructor_arguments`: assert the
instance-count/mode contract, then build one argument dict per instance. -/
def DataclassWrapper.getConstructorArguments (dw : DataclassWrapper) (args : Dict)
    (num : Nat) : Except ParseError (List Dict) :=
  if dw._multiple then
    if num > 1 then buildInstances true num args dw.fields 0 num
    else Except.error (ParseError.contractViolation "multiple is true but we are expected to instantiate only one instance")
  else
    if num = 1 then buildInstances false num args dw.fields 0 num
    else Except.error (ParseError.contractViolation "multiple is false but we are expected to instantiate more than one instance")

/-- The per-field conversion step of `instantiate_dataclass` (lines
251-274): reject containers of dataclasses, look enum members up by name,
coerce tuples and lists, apply the boolean toggle/pass-through/raise rule,
and pass every other value through unchanged. -/
def materializeValue (f : Field) (value : Value) : Except ParseError Value :=
  if f.type = FieldType.listOfDataclasses then
    Except.error (ParseError.contractViolation "Should not have attributes that are containers of dataclasses")
  else
    match f.type with
    | FieldType.enumeration members =>
      match value with
      | Value.str s =>
        if s ∈ members then Except.ok (Value.enumMember s)
        else Except.error (ParseError.keyError s)
      | _ => Except.error (ParseError.keyError "enum lookup key is not a member name")
    | FieldType.listOrTuple isTuple =>
      match value with
      | Value.list xs =>
        Except.ok (if isTuple then Value.tuple xs else Value.list xs)
      | Value.tuple xs =>
        Except.ok (if isTuple then Value.tuple xs else Value.list xs)
      | _ => Except.error (ParseError.contractViolation "value is not a container")
    | FieldType.boolean =>
      let defaultValue : Value :=
        match f.default with
        | Option.some v => v
        | Option.none => Value.bool false
      match value with
      | Value.none => Except.ok (Value.bool (!pyTruthy defaultValue))
      | Value.bool b => Except.ok (Value.bool b)
      | _ => Except.error (ParseError.runtimeError "bool argument is not bool")
    | _ => Except.ok value

/-- The loop of `instantiate_dataclass`: for each init field, read its
value from the argument dict under the unprefixed field name (a missing key
is Python's `KeyError`), convert it, and record the constructor keyword
argument. -/
def instantiateFields (args : Dict) : List FieldWrapper → Dict → Except ParseError Dict
  | [], acc => Except.ok acc
  | fw :: rest, acc =>
    if fw.field.init = false then instantiateFields args rest acc
    else
      match dictLookup args fw.field.name with
      | Option.none => Except.error (ParseError.keyError fw.field.name)
      | Option.some value =>
        match materializeValue fw.field value with
        | Except.error e => Except.error e
        | Except.ok v => instantiateFields args rest (dictInsert acc fw.field.name v)

/-- `DataclassWrapper.instantiate_dataclass`: the resulting instance is
modelled by the dict of constructor keyword arguments handed to
`dataclass(**constructor_args)`; an instance's field values are exactly
those bindings. -/
def DataclassWrapper.instantiateDataclass (dw : DataclassWrapper) (args : Dict) :
    Except ParseError Dict :=
  instantiateFields args dw.fields []

/-- The value that `processField` stores for a field in a given instance,
as a function of the raw value: in multiple mode the broadcast element, the
positional element, or nothing (failure); otherwise the raw value itself. -/
def insertedValue (multiple : Bool) (num i : Nat) (value : Value) : Option Value :=
  if multiple then
    match value with
    | Value.list xs =>
      if xs.length = 1 then Option.some (xs.getD 0 Value.none)
      else if xs.length = num then Option.some (xs.getD i Value.none)
      else Option.none
    | _ => Option.none
  else Option.some value

/-- A field that `processField` can handle without failing in multiple
mode: skipped (non-init or nested dataclass), or constructible with a raw
list value of an acceptable length under its prefixed name. -/
def fieldOkMultiple (num : Nat) (args : Dict) (fw : FieldWrapper) : Prop :=
  fw.field.init = false ∨ fw.field.type = FieldType.dataclassT ∨
  (fw.field.type ≠ FieldType.listOfDataclasses ∧
   ∃ ys, dictLookup args fw.name = Option.some (Value.list ys) ∧
     (ys.length = 1 ∨ ys.length = num))

/-- Sample field: a plain scalar with no default (hence required). -/
def fX : Field := { name := "x", type := FieldType.scalar }

/-- Sample field: a scalar with a declared value default. -/
def fScalarD : Field :=
  { name := "x", type := FieldType.scalar, default := Option.some (Value.int 7) }

/-- Sample field: a two-member enumeration with a member default. -/
def fColorRed : Field :=
  { name := "color", type := FieldType.enumeration ["RED", "GREEN"],
    default := Option.some (Value.enumMember "RED") }

/-- Sample field: a two-member enumeration with no default. -/
def fColor : Field :=
  { name := "color", type := FieldType.enumeration ["RED", "GREEN"] }

/-- Sample field: a boolean with declared default `false`. -/
def fFlagD : Field :=
  { name := "flag", type := FieldType.boolean, default := Option.some (Value.bool false) }

/-- Sample wrapper around `fX` with an empty prefix. -/
def fwX : FieldWrapper := mkFieldWrapper fX Option.none ""

/-- Sample dataclass wrapper in multiple mode around `fX`. -/
def dwX : DataclassWrapper := { fields := [fwX], _multiple := true }

/-- Sample wrapper around `fX` with a non-empty prefix. -/
def fwP : FieldWrapper := mkFieldWrapper fX Option.none "pre."

/-- Sample single-instance dataclass wrapper around the prefixed field. -/
def dwP : DataclassWrapper := { fields := [fwP] }

/-- Sample wrapper around the defaultless enumeration field. -/
def fwColor : FieldWrapper := mkFieldWrapper fColor Option.none ""

/-- Sample single-instance dataclass wrapper around the enumeration field. -/
def dwColor : DataclassWrapper := { fields := [fwColor] }

/-- Sample single-field dataclass wrapper for the required-override cascade. -/
def dwD : DataclassWrapper := { fields := [mkFieldWrapper fScalarD Option.none ""] }

/-- Sample wrapper around a nested-dataclass field (derives an empty
option dictionary). -/
def fwChild : FieldWrapper :=
  mkFieldWrapper { name := "child", type := FieldType.dataclassT } Option.none ""

theorem dictLookup_insert_self (d : Dict) (k : String) (v : Value) :
    dictLookup (dictInsert d k v) k = Option.some v := by
  induction d with
  | nil => simp [dictInsert, dictLookup]
  | cons p rest ih =>
    obtain ⟨k2, v2⟩ := p
    by_cases h : k2 = k <;> simp [dictInsert, dictLookup, h, ih]

theorem dictLookup_insert_ne (d : Dict) (k2 k : String) (v : Value) (h : k2 ≠ k) :
    dictLookup (dictInsert d k2 v) k = dictLookup d k := by
  induction d with
  | nil => simp [dictInsert, dictLookup, h]
  | cons p rest ih =>
    obtain ⟨k3, v3⟩ := p
    by_cases h3 : k3 = k2 <;> by_cases h4 : k3 = k <;>
      simp_all [dictInsert, dictLookup]

theorem processFields_nil (m : Bool) (num i : Nat) (args acc : Dict) :
    processFields m num i args [] acc = Except.ok acc := rfl

theorem processFields_cons (m : Bool) (num i : Nat) (args acc : Dict)
    (fw : FieldWrapper) (rest : List FieldWrapper) :
    processFields m num i args (fw :: rest) acc =
      match processField m num i args acc fw with
      | Except.ok acc2 => processFields m num i args rest acc2
      | Except.error e => Except.error e := rfl

/-- A successful `processField` step either leaves the accumulator alone
(skipped field) or binds exactly the field's unprefixed name. -/
theorem processField_ok_shape {m : Bool} {num i : Nat} {args acc b : Dict}
    {fw : FieldWrapper} (h : processField m num i args acc fw = Except.ok b) :
    b = acc ∨ ∃ v, b = dictInsert acc fw.field.name v := by
  unfold processField at h
  repeat' split at h
  all_goals first
    | exact Except.noConfusion h
    | exact Or.inl (Except.ok.inj h).symm
    | exact Or.inr ⟨_, (Except.ok.inj h).symm⟩

/-- A field satisfying `fieldOkMultiple` is processed successfully from any
accumulator, for any instance index. -/
theorem processField_ok_of_fieldOk {num : Nat} {args : Dict} {fw : FieldWrapper}
    (h : fieldOkMultiple num args fw) (acc : Dict) (i : Nat) :
    ∃ b, processField true num i args acc fw = Except.ok b := by
  rcases h with h1 | h2 | ⟨h3, ys, hl, hlen⟩
  · exact ⟨acc, by simp [processField, h1]⟩
  · by_cases h1 : fw.field.init = false
    · exact ⟨acc, by simp [processField, h1]⟩
    · exact ⟨acc, by simp [processField, h1, h2]⟩
  · by_cases h1 : fw.field.init = false
    · exact ⟨acc, by simp [processField, h1]⟩
    by_cases h2 : fw.field.type = FieldType.dataclassT
    · exact ⟨acc, by simp [processField, h1, h2]⟩
    by_cases hx1 : ys.length = 1
    · exact ⟨dictInsert acc fw.field.name (ys.getD 0 Value.none),
        by simp [processField, h1, h2, h3, hl, hx1]⟩
    · have hn : ys.length = num := by
        rcases hlen with hlen | hlen
        · exact absurd hlen hx1
        · exact hlen
      exact ⟨dictInsert acc fw.field.name (ys.getD i Value.none),
        by rw [← hn]; simp [processField, h1, h2, h3, hl, hx1]⟩

/-- A successful pass over fields none of which is named `k` leaves the
binding of `k` untouched. -/
theorem processFields_lookup_preserved {m : Bool} {num i : Nat} {args : Dict}
    {l : List FieldWrapper} {acc d : Dict} {k : String}
    (h : processFields m num i args l acc = Except.ok d)
    (hk : ∀ g ∈ l, g.field.name ≠ k) :
    dictLookup d k = dictLookup acc k := by
  induction l generalizing acc with
  | nil =>
    rw [processFields_nil] at h
    rw [Except.ok.inj h]
  | cons fw rest ih =>
    rw [processFields_cons] at h
    cases hstep : processField m num i args acc fw with
    | error e => rw [hstep] at h; exact Except.noConfusion h
    | ok acc2 =>
      rw [hstep] at h
      have hrest := ih h (fun g hg => hk g (List.mem_cons_of_mem fw hg))
      rw [hrest]
      rcases processField_ok_shape hstep with heq | ⟨v, heq⟩
      · rw [heq]
      · rw [heq, dictLookup_insert_ne _ _ _ _ (hk fw (List.mem_cons_self fw rest))]

/-- Main success lemma for the inner loop: a constructible, non-dataclass
field that belongs to a successfully processed list (with distinct field
names) was found in the input dict under its prefixed name, and the result
binds its unprefixed name to the value `insertedValue` describes. -/
theorem processFields_field_value {m : Bool} {num i : Nat} {args : Dict}
    {l : List FieldWrapper} {acc d : Dict} {fw : FieldWrapper}
    (h : processFields m num i args l acc = Except.ok d)
    (hmem : fw ∈ l)
    (hnodup : (l.map (fun g => g.field.name)).Nodup)
    (hinit : fw.field.init = true)
    (hdc : fw.field.type ≠ FieldType.dataclassT)
    (hldc : fw.field.type ≠ FieldType.listOfDataclasses) :
    ∃ value v, dictLookup args fw.name = Option.some value ∧
      insertedValue m num i value = Option.some v ∧
      dictLookup d fw.field.name = Option.some v := by
  induction l generalizing acc with
  | nil => exact absurd hmem (List.not_mem_nil fw)
  | cons g rest ih =>
    rw [processFields_cons] at h
    cases hstep : processField m num i args acc g with
    | error e => rw [hstep] at h; exact Except.noConfusion h
    | ok acc2 =>
      rw [hstep] at h
      rw [List.map_cons] at hnodup
      rcases List.mem_cons.mp hmem with heq | hmem2
      · subst heq
        have hnames : ∀ g2 ∈ rest, g2.field.name ≠ fw.field.name := by
          intro g2 hg2 hne
          apply (List.nodup_cons.mp hnodup).1
          rw [← hne]
          exact List.mem_map_of_mem (fun g => g.field.name) hg2
        have hpres := processFields_lookup_preserved h hnames
        unfold processField at hstep
        rw [if_neg (by simp [hinit]), if_neg hdc, if_neg hldc] at hstep
        cases hl : dictLookup args fw.name with
        | none => rw [hl] at hstep; exact Except.noConfusion hstep
        | some value =>
          rw [hl] at hstep
          refine ⟨value, ?_⟩
          cases m with
          | false =>
            have hstep2 : Except.ok (dictInsert acc fw.field.name value) =
                Except.ok acc2 := hstep
            refine ⟨value, rfl, by simp [insertedValue], ?_⟩
            rw [hpres, ← Except.ok.inj hstep2, dictLookup_insert_self]
          | true =>
            cases value with
            | list xs =>
              have hstep2 :
                  (if xs.length = 1 then
                    Except.ok (dictInsert acc fw.field.name (xs.getD 0 Value.none))
                  else if xs.length = num then
                    Except.ok (dictInsert acc fw.field.name (xs.getD i Value.none))
                  else
                    Except.error (ParseError.inconsistentArgument fw.field.name xs.length num)) =
                  Except.ok acc2 := hstep
              have hred : insertedValue true num i (Value.list xs) =
                  if xs.length = 1 then Option.some (xs.getD 0 Value.none)
                  else if xs.length = num then Option.some (xs.getD i Value.none)
                  else Option.none := rfl
              by_cases hx1 : xs.length = 1
              · rw [if_pos hx1] at hstep2
                refine ⟨xs.getD 0 Value.none, rfl, by rw [hred, if_pos hx1], ?_⟩
                rw [hpres, ← Except.ok.inj hstep2, dictLookup_insert_self]
              · by_cases hxn : xs.length = num
                · rw [if_neg hx1, if_pos hxn] at hstep2
                  refine ⟨xs.getD i Value.none, rfl, by rw [hred, if_neg hx1, if_pos hxn], ?_⟩
                  rw [hpres, ← Except.ok.inj hstep2, dictLookup_insert_self]
                · rw [if_neg hx1, if_neg hxn] at hstep2
                  exact Except.noConfusion hstep2
            | none => exact Except.noConfusion hstep
            | bool b => exact Except.noConfusion hstep
            | int n => exact Except.noConfusion hstep
            | str s => exact Except.noConfusion hstep
            | enumMember n => exact Except.noConfusion hstep
            | tuple xs => exact Except.noConfusion hstep
      · exact ih h hmem2 (List.nodup_cons.mp hnodup).2

/-- If a constructible, non-dataclass field's prefixed name is missing from
the input dict, the inner loop cannot succeed. -/
theorem processFields_missing_key {m : Bool} {num i : Nat} {args : Dict}
    {l : List FieldWrapper} {fw : FieldWrapper}
    (hmem : fw ∈ l)
    (hinit : fw.field.init = true)
    (hdc : fw.field.type ≠ FieldType.dataclassT)
    (hldc : fw.field.type ≠ FieldType.listOfDataclasses)
    (hmiss : dictLookup args fw.name = Option.none) :
    ∀ acc d, processFields m num i args l acc ≠ Except.ok d := by
  induction l with
  | nil => exact absurd hmem (List.not_mem_nil fw)
  | cons g rest ih =>
    intro acc d h
    rw [processFields_cons] at h
    cases hstep : processField m num i args acc g with
    | error e => rw [hstep] at h; exact Except.noConfusion h
    | ok acc2 =>
      rw [hstep] at h
      rcases List.mem_cons.mp hmem with heq | hmem2
      · subst heq
        unfold processField at hstep
        rw [if_neg (by simp [hinit]), if_neg hdc, if_neg hldc, hmiss] at hstep
        exact Except.noConfusion hstep
      · exact ih hmem2 acc2 d h

/-- If every field other than `fw` is processable in multiple mode but `fw`
is constructible with a list value of unacceptable length, the inner loop
raises exactly `fw`'s `InconsistentArgumentError`. -/
theorem processFields_inconsistent {num i : Nat} {args : Dict}
    {l : List FieldWrapper} {fw : FieldWrapper} {xs : List Value}
    (hmem : fw ∈ l)
    (hgood : ∀ g ∈ l, g ≠ fw → fieldOkMultiple num args g)
    (hinit : fw.field.init = true)
    (hdc : fw.field.type ≠ FieldType.dataclassT)
    (hldc : fw.field.type ≠ FieldType.listOfDataclasses)
    (hval : dictLookup args fw.name = Option.some (Value.list xs))
    (hx1 : xs.length ≠ 1) (hxn : xs.length ≠ num) :
    ∀ acc, processFields true num i args l acc =
      Except.error (ParseError.inconsistentArgument fw.field.name xs.length num) := by
  have hbad : ∀ acc, processField true num i args acc fw =
      Except.error (ParseError.inconsistentArgument fw.field.name xs.length num) := by
    intro acc
    unfold processField
    rw [if_neg (by simp [hinit]), if_neg hdc, if_neg hldc, hval]
    simp [hx1, hxn]
  induction l with
  | nil => exact absurd hmem (List.not_mem_nil fw)
  | cons g rest ih =>
    intro acc
    rw [processFields_cons]
    by_cases hg : g = fw
    · subst hg
      rw [hbad acc]
    · have hok := hgood g (List.mem_cons_self g rest) hg
      obtain ⟨b, hb⟩ := processField_ok_of_fieldOk hok acc i
      rw [hb]
      have hmem2 : fw ∈ rest := by
        rcases List.mem_cons.mp hmem with heq | hmem2
        · exact absurd heq.symm hg
        · exact hmem2
      exact ih hmem2 (fun g2 hg2 => hgood g2 (List.mem_cons_of_mem g hg2)) b

/-- A successful outer loop produced one dict per remaining instance, and
the dict at offset `j` is the result of the inner loop for index `i + j`. -/
theorem buildInstances_ok {m : Bool} {num : Nat} {args : Dict}
    {fields : List FieldWrapper} {i k : Nat} {ds : List Dict}
    (h : buildInstances m num args fields i k = Except.ok ds) :
    ds.length = k ∧
    ∀ j, j < k → processFields m num (i + j) args fields [] = Except.ok (ds.getD j []) := by
  induction k generalizing i ds with
  | zero =>
    unfold buildInstances at h
    rw [← Except.ok.inj h]
    exact ⟨rfl, fun j hj => absurd hj (Nat.not_lt_zero j)⟩
  | succ k ih =>
    unfold buildInstances at h
    cases hp : processFields m num i args fields [] with
    | error e => rw [hp] at h; exact Except.noConfusion h
    | ok d =>
      rw [hp] at h
      cases hb : buildInstances m num args fields (i + 1) k with
      | error e => rw [hb] at h; exact Except.noConfusion h
      | ok ds2 =>
        rw [hb] at h
        obtain ⟨hlen, hall⟩ := ih hb
        rw [← Except.ok.inj h]
        refine ⟨by simp [hlen], ?_⟩
        intro j hj
        cases j with
        | zero => simpa using hp
        | succ j =>
          have := hall j (Nat.lt_of_succ_lt_succ hj)
          have harith : i + (j + 1) = i + 1 + j := by omega
          rw [harith]
          simpa using this

/-- Every dict in a successful outer-loop result comes from some run of the
inner loop. -/
theorem buildInstances_mem {m : Bool} {num : Nat} {args : Dict}
    {fields : List FieldWrapper} {i k : Nat} {ds : List Dict} {d : Dict}
    (h : buildInstances m num args fields i k = Except.ok ds) (hd : d ∈ ds) :
    ∃ j, processFields m num j args fields [] = Except.ok d := by
  induction k generalizing i ds with
  | zero =>
    unfold buildInstances at h
    rw [← Except.ok.inj h] at hd
    exact absurd hd (List.not_mem_nil d)
  | succ k ih =>
    unfold buildInstances at h
    cases hp : processFields m num i args fields [] with
    | error e => rw [hp] at h; exact Except.noConfusion h
    | ok d2 =>
      rw [hp] at h
      cases hb : buildInstances m num args fields (i + 1) k with
      | error e => rw [hb] at h; exact Except.noConfusion h
      | ok ds2 =>
        rw [hb] at h
        rw [← Except.ok.inj h] at hd
        rcases List.mem_cons.mp hd with heq | hmem
        · exact ⟨i, heq ▸ hp⟩
        · exact ih hb hmem

/-- The outer loop propagates a failure of its first inner run. -/
theorem buildInstances_error {m : Bool} {num : Nat} {args : Dict}
    {fields : List FieldWrapper} {i k : Nat} {e : ParseError}
    (h : processFields m num i args fields [] = Except.error e) :
    buildInstances m num args fields i (k + 1) = Except.error e := by
  unfold buildInstances
  rw [h]

/-- Unfolding `get_constructor_arguments` on success, multiple mode: the
instance-count assert passed and the outer loop succeeded. -/
theorem getConstructorArguments_ok_multiple {dw : DataclassWrapper} {args : Dict}
    {num : Nat} {ds : List Dict}
    (hm : dw._multiple = true)
    (h : dw.getConstructorArguments args num = Except.ok ds) :
    1 < num ∧ buildInstances true num args dw.fields 0 num = Except.ok ds := by
  unfold DataclassWrapper.getConstructorArguments at h
  rw [hm] at h
  by_cases hn : num > 1
  · rw [if_pos rfl, if_pos hn] at h
    exact ⟨hn, h⟩
  · rw [if_pos rfl, if_neg hn] at h
    exact Except.noConfusion h

/-- Unfolding `get_constructor_arguments` on success, single mode: the
instance count was 1 and the outer loop succeeded. -/
theorem getConstructorArguments_ok_single {dw : DataclassWrapper} {args : Dict}
    {num : Nat} {ds : List Dict}
    (hm : dw._multiple = false)
    (h : dw.getConstructorArguments args num = Except.ok ds) :
    num = 1 ∧ buildInstances false num args dw.fields 0 num = Except.ok ds := by
  unfold DataclassWrapper.getConstructorArguments at h
  rw [hm] at h
  by_cases hn : num = 1
  · rw [if_neg Bool.false_ne_true, if_pos hn] at h
    exact ⟨hn, h⟩
  · rw [if_neg Bool.false_ne_true, if_neg hn] at h
    exact Except.noConfusion h

theorem instantiateFields_nil (args acc : Dict) :
    instantiateFields args [] acc = Except.ok acc := rfl

theorem instantiateFields_cons (args acc : Dict) (fw : FieldWrapper)
    (rest : List FieldWrapper) :
    instantiateFields args (fw :: rest) acc =
      if fw.field.init = false then instantiateFields args rest acc
      else
        match dictLookup args fw.field.name with
        | Option.none => Except.error (ParseError.keyError fw.field.name)
        | Option.some value =>
          match materializeValue fw.field value with
          | Except.error e => Except.error e
          | Except.ok v => instantiateFields args rest (dictInsert acc fw.field.name v) := rfl

/-- A successful instantiation pass over fields none of which is named `k`
leaves the binding of `k` untouched. -/
theorem instantiateFields_lookup_preserved {args : Dict}
    {l : List FieldWrapper} {acc r : Dict} {k : String}
    (h : instantiateFields args l acc = Except.ok r)
    (hk : ∀ g ∈ l, g.field.name ≠ k) :
    dictLookup r k = dictLookup acc k := by
  induction l generalizing acc with
  | nil =>
    rw [instantiateFields_nil] at h
    rw [Except.ok.inj h]
  | cons fw rest ih =>
    rw [instantiateFields_cons] at h
    have hkrest : ∀ g ∈ rest, g.field.name ≠ k :=
      fun g hg => hk g (List.mem_cons_of_mem fw hg)
    by_cases h1 : fw.field.init = false
    · rw [if_pos h1] at h
      exact ih h hkrest
    · rw [if_neg h1] at h
      cases hl : dictLookup args fw.field.name with
      | none => rw [hl] at h; exact Except.noConfusion h
      | some value =>
        rw [hl] at h
        have h2 : (match materializeValue fw.field value with
            | Except.error e => Except.error e
            | Except.ok v => instantiateFields args rest (dictInsert acc fw.field.name v)) =
            Except.ok r := h
        cases hmv : materializeValue fw.field value with
        | error e => rw [hmv] at h2; exact Except.noConfusion h2
        | ok v =>
          rw [hmv] at h2
          rw [ih h2 hkrest,
            dictLookup_insert_ne _ _ _ _ (hk fw (List.mem_cons_self fw rest))]

/-- Main success lemma for `instantiate_dataclass`: each init field of a
successfully instantiated list (with distinct field names) had a value in
the argument dict under its unprefixed name, its conversion succeeded, and
the resulting constructor arguments bind its name to the converted value. -/
theorem instantiateFields_field_value {args : Dict}
    {l : List FieldWrapper} {acc r : Dict} {fw : FieldWrapper}
    (h : instantiateFields args l acc = Except.ok r)
    (hmem : fw ∈ l)
    (hnodup : (l.map (fun g => g.field.name)).Nodup)
    (hinit : fw.field.init = true) :
    ∃ value v, dictLookup args fw.field.name = Option.some value ∧
      materializeValue fw.field value = Except.ok v ∧
      dictLookup r fw.field.name = Option.some v := by
  induction l generalizing acc with
  | nil => exact absurd hmem (List.not_mem_nil fw)
  | cons g rest ih =>
    rw [instantiateFields_cons] at h
    rw [List.map_cons] at hnodup
    rcases List.mem_cons.mp hmem with heq | hmem2
    · subst heq
      rw [if_neg (by simp [hinit])] at h
      cases hl : dictLookup args fw.field.name with
      | none => rw [hl] at h; exact Except.noConfusion h
      | some value =>
        rw [hl] at h
        have h2 : (match materializeValue fw.field value with
            | Except.error e => Except.error e
            | Except.ok v => instantiateFields args rest (dictInsert acc fw.field.name v)) =
            Except.ok r := h
        cases hmv : materializeValue fw.field value with
        | error e => rw [hmv] at h2; exact Except.noConfusion h2
        | ok v =>
          rw [hmv] at h2
          have hnames : ∀ g2 ∈ rest, g2.field.name ≠ fw.field.name := by
            intro g2 hg2 hne
            apply (List.nodup_cons.mp hnodup).1
            rw [← hne]
            exact List.mem_map_of_mem (fun g => g.field.name) hg2
          refine ⟨value, v, rfl, hmv, ?_⟩
          rw [instantiateFields_lookup_preserved h2 hnames, dictLookup_insert_self]
    · by_cases h1 : g.field.init = false
      · rw [if_pos h1] at h
        exact ih h hmem2 (List.nodup_cons.mp hnodup).2
      · rw [if_neg h1] at h
        cases hl : dictLookup args g.field.name with
        | none => rw [hl] at h; exact Except.noConfusion h
        | some value =>
          rw [hl] at h
          have h2 : (match materializeValue g.field value with
              | Except.error e => Except.error e
              | Except.ok v => instantiateFields args rest (dictInsert acc g.field.name v)) =
              Except.ok r := h
          cases hmv : materializeValue g.field value with
          | error e => rw [hmv] at h2; exact Except.noConfusion h2
          | ok v =>
            rw [hmv] at h2
            exact ih h2 hmem2 (List.nodup_cons.mp hnodup).2

theorem defaultRequiredStep_value {f : Field} {o : ArgOptions} {v : Value}
    (hd : f.default = Option.some v) :
    (defaultRequiredStep f o).default = Option.some v ∧
    (defaultRequiredStep f o).required = o.required := by
  simp [defaultRequiredStep, hd]

theorem defaultRequiredStep_factory {f : Field} {o : ArgOptions} {v : Value}
    (hd : f.default = Option.none) (hf : f.default_factory = Option.some v) :
    (defaultRequiredStep f o).default = Option.some v ∧
    (defaultRequiredStep f o).required = o.required := by
  simp [defaultRequiredStep, hd, hf]

theorem defaultRequiredStep_missing {f : Field} {o : ArgOptions}
    (hd : f.default = Option.none) (hf : f.default_factory = Option.none) :
    (defaultRequiredStep f o).required = Option.some true ∧
    (defaultRequiredStep f o).default = o.default := by
  simp [defaultRequiredStep, hd, hf]

/-- Projections of the enumeration branch of the type dispatch. -/
theorem typeDispatchStep_enum_proj (f : Field) (members : List String)
    (htype : f.type = FieldType.enumeration members) (multiple : Bool)
    (o : ArgOptions) :
    (typeDispatchStep f multiple o).choices = Option.some members ∧
    (typeDispatchStep f multiple o).type = Option.some ArgType.strDecoder ∧
    (typeDispatchStep f multiple o).required = o.required ∧
    (∀ n, o.default = Option.some (Value.enumMember n) →
      (typeDispatchStep f multiple o).default = Option.some (Value.str n)) := by
  cases hdd : o.default with
  | none => simp [typeDispatchStep, htype, hdd]
  | some v => cases v <;> simp [typeDispatchStep, htype, hdd]

/-- The traced accessor runs the same branches as the plain one. -/
theorem argOptionsGet_eq_traced (fw : FieldWrapper) :
    FieldWrapper.argOptionsGet fw = (FieldWrapper.argOptionsGetTraced fw).1 := by
  unfold FieldWrapper.argOptionsGet FieldWrapper.argOptionsGetTraced
  split <;> rfl

theorem docHelp_default (doc : Option AttributeDocString) (o : ArgOptions) :
    (docHelp doc o).default = o.default := by
  unfold docHelp
  repeat' split
  all_goals rfl

theorem docHelp_required (doc : Option AttributeDocString) (o : ArgOptions) :
    (docHelp doc o).required = o.required := by
  unfold docHelp
  repeat' split
  all_goals rfl

theorem docHelp_type (doc : Option AttributeDocString) (o : ArgOptions) :
    (docHelp doc o).type = o.type := by
  unfold docHelp
  repeat' split
  all_goals rfl

theorem docHelp_choices (doc : Option AttributeDocString) (o : ArgOptions) :
    (docHelp doc o).choices = o.choices := by
  unfold docHelp
  repeat' split
  all_goals rfl

theorem docHelp_nargs (doc : Option AttributeDocString) (o : ArgOptions) :
    (docHelp doc o).nargs = o.nargs := by
  unfold docHelp
  repeat' split
  all_goals rfl

theorem multipleFinalize_required_case {o : ArgOptions}
    (h : o.required = Option.some true) :
    (multipleFinalize o).nargs = Option.some "+" ∧
    (multipleFinalize o).default = o.default := by
  unfold multipleFinalize
  rw [h]
  exact ⟨rfl, rfl⟩

theorem multipleFinalize_optional_case {o : ArgOptions}
    (h : o.required.getD false = false) :
    (multipleFinalize o).nargs = Option.some "*" ∧
    (multipleFinalize o).default =
      Option.some (Value.list [o.default.getD Value.none]) := by
  unfold multipleFinalize
  rw [h]
  exact ⟨rfl, rfl⟩

theorem multipleFinalize_choices (o : ArgOptions) :
    (multipleFinalize o).choices = o.choices := by
  unfold multipleFinalize
  split <;> rfl

theorem multipleFinalize_type (o : ArgOptions) :
    (multipleFinalize o).type = o.type := by
  unfold multipleFinalize
  split <;> rfl

/-- Invariant of the derivation body: either the field ended up required
(`required = True` was written and survived), or `required` was never
written and a default entry is present. -/
theorem argOptionsBody_invariant (f : Field) (doc : Option AttributeDocString)
    (multiple : Bool) :
    (argOptionsBody f doc multiple).required = Option.some true ∨
    ((argOptionsBody f doc multiple).required = Option.none ∧
     ∃ d, (argOptionsBody f doc multiple).default = Option.some d) := by
  unfold argOptionsBody defaultRequiredStep
  cases hd : f.default with
  | some v =>
    refine Or.inr ?_
    cases ht : f.type with
    | enumeration members =>
      cases v <;>
        simp [typeDispatchStep, ht, docHelp_required, docHelp_default]
    | scalar => simp [typeDispatchStep, ht, docHelp_required, docHelp_default]
    | boolean => simp [typeDispatchStep, ht, hd, docHelp_required, docHelp_default]
    | listOrTuple t =>
      by_cases hm : multiple = true <;>
        simp [typeDispatchStep, ht, hm, docHelp_required, docHelp_default]
    | dataclassT => simp [typeDispatchStep, ht, docHelp_required, docHelp_default]
    | listOfDataclasses => simp [typeDispatchStep, ht, docHelp_required, docHelp_default]
  | none =>
    cases hdf : f.default_factory with
    | some v =>
      cases ht : f.type with
      | enumeration members =>
        refine Or.inr ?_
        cases v <;>
          simp [typeDispatchStep, ht, docHelp_required, docHelp_default]
      | scalar =>
        exact Or.inr (by simp [typeDispatchStep, ht, docHelp_required, docHelp_default])
      | boolean =>
        exact Or.inl (by simp [typeDispatchStep, ht, hd, docHelp_required, docHelp_default])
      | listOrTuple t =>
        refine Or.inr ?_
        by_cases hm : multiple = true <;>
          simp [typeDispatchStep, ht, hm, docHelp_required, docHelp_default]
      | dataclassT =>
        exact Or.inr (by simp [typeDispatchStep, ht, docHelp_required, docHelp_default])
      | listOfDataclasses =>
        exact Or.inr (by simp [typeDispatchStep, ht, docHelp_required, docHelp_default])
    | none =>
      refine Or.inl ?_
      cases ht : f.type with
      | enumeration members =>
        simp [typeDispatchStep, ht, docHelp_required, docHelp_default]
      | scalar => simp [typeDispatchStep, ht, docHelp_required, docHelp_default]
      | boolean => simp [typeDispatchStep, ht, hd, docHelp_required, docHelp_default]
      | listOrTuple t =>
        by_cases hm : multiple = true <;>
          simp [typeDispatchStep, ht, hm, docHelp_required, docHelp_default]
      | dataclassT => simp [typeDispatchStep, ht, docHelp_required, docHelp_default]
      | listOfDataclasses => simp [typeDispatchStep, ht, docHelp_required, docHelp_default]

/-- A successful `get_constructor_arguments` call passed its instance-count
assert and ran the instance loop. -/
theorem getConstructorArguments_ok_any {dw : DataclassWrapper} {args : Dict}
    {num : Nat} {ds : List Dict}
    (h : dw.getConstructorArguments args num = Except.ok ds) :
    0 < num ∧ buildInstances dw._multiple num args dw.fields 0 num = Except.ok ds := by
  cases hm : dw._multiple with
  | true =>
    obtain ⟨hn, hb⟩ := getConstructorArguments_ok_multiple hm h
    exact ⟨Nat.lt_of_lt_of_le Nat.zero_lt_one (Nat.le_of_lt hn), hb⟩
  | false =>
    obtain ⟨hn, hb⟩ := getConstructorArguments_ok_single hm h
    exact ⟨by omega, hb⟩

/-- C5: during materialization of a boolean field, an absent parsed value
(`None`) yields the negation of the declared default (of `false` when no
default is declared), a boolean parsed value passes through unchanged, and
every other value raises an error — and the error is raised in exactly
those non-boolean, non-absent cases. -/
theorem claim_C5 (f : Field) (hb : f.type = FieldType.boolean) :
    materializeValue f Value.none =
      Except.ok (Value.bool (!pyTruthy (f.default.getD (Value.bool false)))) ∧
    (∀ b, materializeValue f (Value.bool b) = Except.ok (Value.bool b)) ∧
    (∀ v, v ≠ Value.none → (∀ b, v ≠ Value.bool b) →
      materializeValue f v =
        Except.error (ParseError.runtimeError "bool argument is not bool")) := by
  refine ⟨?_, ?_, ?_⟩
  · cases hd : f.default with
    | none => simp [materializeValue, hb, hd, Option.getD]
    | some v => simp [materializeValue, hb, hd, Option.getD]
  · intro b
    simp [materializeValue, hb]
  · intro v hv1 hv2
    cases v with
    | none => exact absurd rfl hv1
    | bool b => exact absurd rfl (hv2 b)
    | int n => simp [materializeValue, hb]
    | str s => simp [materializeValue, hb]
    | enumMember n => simp [materializeValue, hb]
    | list xs => simp [materializeValue, hb]
    | tuple xs => simp [materializeValue, hb]

/-- C5 witness: the boolean field with declared default `false` toggles an
absent value to `true`, passes `true` through, and rejects an integer. -/
theorem claim_C5_witness :
    fFlagD.type = FieldType.boolean ∧
    materializeValue fFlagD Value.none = Except.ok (Value.bool true) ∧
    materializeValue fFlagD (Value.bool true) = Except.ok (Value.bool true) ∧
    materializeValue fFlagD (Value.int 3) =
      Except.error (ParseError.runtimeError "bool argument is not bool") :=
  ⟨rfl, (claim_C5 fFlagD rfl).1, (claim_C5 fFlagD rfl).2.1 true,
   (claim_C5 fFlagD rfl).2.2 (Value.int 3) (by simp) (fun b => by simp)⟩

/-- C6: non-init fields, nested dataclass fields and fields holding
containers of dataclasses always derive the empty option dictionary, for
every multiple setting, default and docstring. -/
theorem claim_C6 (f : Field) (doc : Option AttributeDocString) (m : Bool)
    (h : f.init = false ∨ f.type = FieldType.dataclassT ∨
      f.type = FieldType.listOfDataclasses) :
    getArgOptions f doc m = emptySpec := by
  unfold getArgOptions
  rcases h with h | h | h
  · rw [if_pos h]
  · by_cases h1 : f.init = false
    · rw [if_pos h1]
    · rw [if_neg h1, if_pos h]
  · by_cases h1 : f.init = false
    · rw [if_pos h1]
    by_cases h2 : f.type = FieldType.dataclassT
    · rw [if_neg h1, if_pos h2]
    · rw [if_neg h1, if_neg h2, if_pos h]

/-- C6 witness: a nested-dataclass field derives the empty dictionary in
multiple mode. -/
theorem claim_C6_witness :
    ({ name := "child", type := FieldType.dataclassT } : Field).type =
      FieldType.dataclassT ∧
    getArgOptions { name := "child", type := FieldType.dataclassT }
      Option.none true = emptySpec :=
  ⟨rfl, claim_C6 { name := "child", type := FieldType.dataclassT }
    Option.none true (Or.inr (Or.inl rfl))⟩

/-- C7 counterexample: for a wrapper around a nested-dataclass field the
derived dictionary is empty, and the empty dict is falsy, so it is never
stored as a truthy cache: the second access recomputes (the traced
accessor takes the derivation branch again), contradicting the claim that
every descriptor's second access returns the cached map without
recomputation. -/
theorem claim_C7_counterexample :
    (FieldWrapper.argOptionsGetTraced fwChild).2 = true ∧
    (FieldWrapper.argOptionsGetTraced
      (FieldWrapper.argOptionsGetTraced fwChild).1.2).2 = true :=
  ⟨rfl, rfl⟩

/-- C7 (amended): reading `arg_options` twice without changing `multiple`
yields the same dictionary and the same wrapper state; when the stored
dictionary is non-empty (every constructible non-dataclass field), the
access returns it without recomputing — a field whose derived dictionary
is empty is re-derived on every access, since the empty dict is falsy —
and setting `multiple` to a different value clears the cache, so the next
read re-derives the options under the new mode. -/
theorem claim_C7 (fw : FieldWrapper) :
    ((FieldWrapper.argOptionsGet (FieldWrapper.argOptionsGet fw).2).1 =
      (FieldWrapper.argOptionsGet fw).1 ∧
     (FieldWrapper.argOptionsGet (FieldWrapper.argOptionsGet fw).2).2 =
      (FieldWrapper.argOptionsGet fw).2) ∧
    (fw._arg_options.isEmptyDict = false →
      (FieldWrapper.argOptionsGetTraced fw).2 = false ∧
      (FieldWrapper.argOptionsGetTraced fw).1.1 = fw._arg_options) ∧
    (∀ b, b ≠ fw._multiple →
      (FieldWrapper.setMultiple fw b)._arg_options = emptySpec ∧
      (FieldWrapper.argOptionsGet (FieldWrapper.setMultiple fw b)).1 =
        getArgOptions fw.field fw._docstring b) := by
  obtain ⟨f, pfx, cache, doc, mul, req⟩ := fw
  refine ⟨?_, ?_, ?_⟩
  · by_cases hc : cache.isEmptyDict
    · by_cases ho : (getArgOptions f doc mul).isEmptyDict
      · simp [FieldWrapper.argOptionsGet, hc, ho]
      · simp [FieldWrapper.argOptionsGet, hc, ho]
    · simp [FieldWrapper.argOptionsGet, hc]
  · intro hc
    simp [FieldWrapper.argOptionsGetTraced, hc]
  · intro b hb
    constructor
    · simp [FieldWrapper.setMultiple, hb]
    · have hset : FieldWrapper.setMultiple ⟨f, pfx, cache, doc, mul, req⟩ b =
          ⟨f, pfx, emptySpec, doc, b, req⟩ := by
        simp [FieldWrapper.setMultiple, hb]
      rw [hset]
      have he : (emptySpec).isEmptyDict = true := rfl
      simp [FieldWrapper.argOptionsGet, he]

/-- C7 witness: after a first read fills the scalar wrapper's cache, a
traced second read returns the stored dictionary without recomputing, and
flipping `multiple` clears the cache so the next read derives the
multiple-mode options. -/
theorem claim_C7_witness :
    ((FieldWrapper.argOptionsGetTraced (FieldWrapper.argOptionsGet fwX).2).2 = false ∧
     (FieldWrapper.argOptionsGetTraced (FieldWrapper.argOptionsGet fwX).2).1.1 =
       (FieldWrapper.argOptionsGet fwX).2._arg_options) ∧
    (FieldWrapper.setMultiple fwX true)._arg_options = emptySpec ∧
    (FieldWrapper.argOptionsGet (FieldWrapper.setMultiple fwX true)).1 =
      getArgOptions fX Option.none true :=
  ⟨(claim_C7 (FieldWrapper.argOptionsGet fwX).2).2.1 rfl,
   (claim_C7 fwX).2.2 true (by simp [fwX, mkFieldWrapper])⟩

/-- C8: setting the required override — directly on a wrapper or through
the owning dataclass wrapper's cascading `required` setter — makes the
derived required status equal the override, whatever the declared value or
factory default, and the override survives later `multiple` changes and
`arg_options` reads. -/
theorem claim_C8 (dw : DataclassWrapper) (b : Bool) :
    (∀ fw : FieldWrapper,
      FieldWrapper.requiredGet (FieldWrapper.setRequired fw b) = b ∧
      (∀ m, FieldWrapper.requiredGet
        (FieldWrapper.setMultiple (FieldWrapper.setRequired fw b) m) = b) ∧
      FieldWrapper.requiredGet
        (FieldWrapper.argOptionsGet (FieldWrapper.setRequired fw b)).2 = b) ∧
    (∀ fw ∈ (DataclassWrapper.setRequired dw b).fields,
      FieldWrapper.requiredGet fw = b) := by
  constructor
  · intro fw
    refine ⟨rfl, ?_, ?_⟩
    · intro m
      simp [FieldWrapper.setMultiple, FieldWrapper.setRequired,
        FieldWrapper.requiredGet, apply_ite]
    · simp [FieldWrapper.argOptionsGet, FieldWrapper.setRequired,
        FieldWrapper.requiredGet, apply_ite]
  · intro fw hmem
    obtain ⟨g, hg, rfl⟩ := List.mem_map.mp hmem
    rfl

/-- C8 witness: the cascaded override `true` wins over the declared value
default of the sample field. -/
theorem claim_C8_witness :
    FieldWrapper.requiredGet
      (FieldWrapper.setRequired (mkFieldWrapper fScalarD Option.none "") true) = true :=
  (claim_C8 dwD true).2
    (FieldWrapper.setRequired (mkFieldWrapper fScalarD Option.none "") true)
    (List.mem_cons_self _ _)

/-- C2 counterexample: an enumeration field with a declared member default
is constructible and neither a nested dataclass nor a container of
dataclasses, yet the derived `default` entry is not the declared default —
the enumeration branch rewrites it to the member's name string. -/
theorem claim_C2_counterexample :
    fColorRed.init = true ∧
    fColorRed.type ≠ FieldType.dataclassT ∧
    fColorRed.type ≠ FieldType.listOfDataclasses ∧
    fColorRed.default = Option.some (Value.enumMember "RED") ∧
    (getArgOptions fColorRed Option.none false).default =
      Option.some (Value.str "RED") ∧
    (getArgOptions fColorRed Option.none false).default ≠
      Option.some (Value.enumMember "RED") :=
  ⟨rfl, fun h => FieldType.noConfusion h, fun h => FieldType.noConfusion h,
   rfl, rfl, fun h => Value.noConfusion (Option.some.inj h)⟩

/-- C2 (amended): outside multiple mode, for constructible fields that are
neither nested dataclasses, containers of dataclasses, enumerations nor
booleans, a declared value default becomes the `default` entry with
`required` absent; else a factory default's result becomes the `default`
entry; else `required` is true. (Enumeration member defaults are rewritten
to name strings, boolean fields rebuild `default`/`required` from the
declared default alone, and multiple mode wraps optional defaults in a
single-element list.) -/
theorem claim_C2 (f : Field) (doc : Option AttributeDocString)
    (hinit : f.init = true)
    (hcat : f.type = FieldType.scalar ∨ ∃ t, f.type = FieldType.listOrTuple t) :
    (∀ v, f.default = Option.some v →
      (getArgOptions f doc false).default = Option.some v ∧
      (getArgOptions f doc false).required = Option.none) ∧
    (∀ v, f.default = Option.none → f.default_factory = Option.some v →
      (getArgOptions f doc false).default = Option.some v) ∧
    (f.default = Option.none → f.default_factory = Option.none →
      (getArgOptions f doc false).required = Option.some true) := by
  have hbody : getArgOptions f doc false = argOptionsBody f doc false := by
    unfold getArgOptions
    rcases hcat with hs | ⟨t, hs⟩ <;>
      rw [if_neg (by simp [hinit]), if_neg (by rw [hs]; simp),
        if_neg (by rw [hs]; simp), if_neg Bool.false_ne_true]
  rw [hbody]
  unfold argOptionsBody defaultRequiredStep
  refine ⟨?_, ?_, ?_⟩
  · intro v hd
    rcases hcat with hs | ⟨t, hs⟩ <;>
      simp [typeDispatchStep, hs, hd, docHelp_required, docHelp_default]
  · intro v hd hdf
    rcases hcat with hs | ⟨t, hs⟩ <;>
      simp [typeDispatchStep, hs, hd, hdf, docHelp_required, docHelp_default]
  · intro hd hdf
    rcases hcat with hs | ⟨t, hs⟩ <;>
      simp [typeDispatchStep, hs, hd, hdf, docHelp_required, docHelp_default]

/-- C2 witness: the scalar field with declared default 7 derives
`default = 7` with `required` absent. -/
theorem claim_C2_witness :
    (getArgOptions fScalarD Option.none false).default = Option.some (Value.int 7) ∧
    (getArgOptions fScalarD Option.none false).required = Option.none :=
  (claim_C2 fScalarD Option.none rfl (Or.inl rfl)).1 (Value.int 7) rfl

/-- C3 counterexample: in multiple mode, an enumeration field with member
default RED derives `default = ["RED"]` (the name wrapped in a list by the
multiple-mode finalization), not the bare name string claimed. -/
theorem claim_C3_counterexample :
    fColorRed.type = FieldType.enumeration ["RED", "GREEN"] ∧
    fColorRed.default = Option.some (Value.enumMember "RED") ∧
    (getArgOptions fColorRed Option.none true).default =
      Option.some (Value.list [Value.str "RED"]) ∧
    (getArgOptions fColorRed Option.none true).default ≠
      Option.some (Value.str "RED") :=
  ⟨rfl, rfl, rfl, fun h => Value.noConfusion (Option.some.inj h)⟩

/-- C3 (amended): an enumeration field's derived options always carry
`choices = the ordered member names` and `type = str`; a default that is an
enum member (declared directly or produced by the factory) is normalized to
its name string when multiple is false, and to that name wrapped in a
single-element list when multiple is true. -/
theorem claim_C3 (f : Field) (doc : Option AttributeDocString)
    (members : List String) (m : Bool)
    (hinit : f.init = true)
    (htype : f.type = FieldType.enumeration members) :
    (getArgOptions f doc m).choices = Option.some members ∧
    (getArgOptions f doc m).type = Option.some ArgType.strDecoder ∧
    (∀ n, (f.default = Option.some (Value.enumMember n) ∨
        (f.default = Option.none ∧
         f.default_factory = Option.some (Value.enumMember n))) →
      (getArgOptions f doc false).default = Option.some (Value.str n) ∧
      (getArgOptions f doc true).default =
        Option.some (Value.list [Value.str n])) := by
  have hne1 : ¬ f.init = false := by simp [hinit]
  have hdc : f.type ≠ FieldType.dataclassT := by rw [htype]; simp
  have hldc : f.type ≠ FieldType.listOfDataclasses := by rw [htype]; simp
  have hgaF : ∀ doc2, getArgOptions f doc2 false = argOptionsBody f doc2 false := by
    intro doc2
    unfold getArgOptions
    rw [if_neg hne1, if_neg hdc, if_neg hldc, if_neg Bool.false_ne_true]
  have hgaT : ∀ doc2, getArgOptions f doc2 true =
      multipleFinalize (argOptionsBody f doc2 true) := by
    intro doc2
    unfold getArgOptions
    rw [if_neg hne1, if_neg hdc, if_neg hldc, if_pos rfl]
  have hchoices : ∀ m2, (argOptionsBody f doc m2).choices = Option.some members := by
    intro m2
    unfold argOptionsBody
    exact (typeDispatchStep_enum_proj f members htype m2 _).1
  have htypeEntry : ∀ m2, (argOptionsBody f doc m2).type =
      Option.some ArgType.strDecoder := by
    intro m2
    unfold argOptionsBody
    exact (typeDispatchStep_enum_proj f members htype m2 _).2.1
  have hdefault : ∀ n m2, (f.default = Option.some (Value.enumMember n) ∨
      (f.default = Option.none ∧
       f.default_factory = Option.some (Value.enumMember n))) →
      (argOptionsBody f doc m2).default = Option.some (Value.str n) ∧
      (argOptionsBody f doc m2).required = Option.none := by
    intro n m2 hd
    unfold argOptionsBody
    have hstep : (defaultRequiredStep f
          (docHelp doc { type := Option.some (ArgType.declared f.type) })).default =
        Option.some (Value.enumMember n) ∧
        (defaultRequiredStep f
          (docHelp doc { type := Option.some (ArgType.declared f.type) })).required =
        (docHelp doc { type := Option.some (ArgType.declared f.type) }).required := by
      rcases hd with hd | ⟨hd, hdf⟩
      · exact defaultRequiredStep_value hd
      · exact defaultRequiredStep_factory hd hdf
    obtain ⟨hsd, hsr⟩ := hstep
    have hproj := typeDispatchStep_enum_proj f members htype m2
      (defaultRequiredStep f (docHelp doc { type := Option.some (ArgType.declared f.type) }))
    refine ⟨hproj.2.2.2 n hsd, ?_⟩
    rw [hproj.2.2.1, hsr, docHelp_required]
  refine ⟨?_, ?_, ?_⟩
  · cases m with
    | false => rw [hgaF doc]; exact hchoices false
    | true => rw [hgaT doc, multipleFinalize_choices]; exact hchoices true
  · cases m with
    | false => rw [hgaF doc]; exact htypeEntry false
    | true => rw [hgaT doc, multipleFinalize_type]; exact htypeEntry true
  · intro n hd
    obtain ⟨hdF, hrF⟩ := hdefault n false hd
    obtain ⟨hdT, hrT⟩ := hdefault n true hd
    constructor
    · rw [hgaF doc]; exact hdF
    · rw [hgaT doc]
      have := multipleFinalize_optional_case (o := argOptionsBody f doc true)
        (by rw [hrT]; rfl)
      rw [this.2, hdT]
      rfl

/-- C3 witness: the enumeration field with member default RED derives
`choices = [RED, GREEN]`, string decoding, default "RED" outside multiple
mode and default ["RED"] in multiple mode. -/
theorem claim_C3_witness :
    (getArgOptions fColorRed Option.none false).choices =
      Option.some ["RED", "GREEN"] ∧
    (getArgOptions fColorRed Option.none false).type =
      Option.some ArgType.strDecoder ∧
    (getArgOptions fColorRed Option.none false).default =
      Option.some (Value.str "RED") ∧
    (getArgOptions fColorRed Option.none true).default =
      Option.some (Value.list [Value.str "RED"]) := by
  have h := claim_C3 fColorRed Option.none ["RED", "GREEN"] false rfl rfl
  exact ⟨h.1, h.2.1, (h.2.2 "RED" (Or.inl rfl)).1, (h.2.2 "RED" (Or.inl rfl)).2⟩

/-- C4: in multiple mode, for every field that derives a non-empty option
dictionary (constructible, not a dataclass or container of dataclasses),
the finalization forces `nargs = "+"` when the options ended up required,
and otherwise forces `nargs = "*"` and wraps the existing default in a
single-element list. -/
theorem claim_C4 (f : Field) (doc : Option AttributeDocString)
    (hinit : f.init = true)
    (hdc : f.type ≠ FieldType.dataclassT)
    (hldc : f.type ≠ FieldType.listOfDataclasses) :
    ((argOptionsPre f doc true).required = Option.some true →
      (getArgOptions f doc true).nargs = Option.some "+" ∧
      (getArgOptions f doc true).default = (argOptionsPre f doc true).default) ∧
    ((argOptionsPre f doc true).required ≠ Option.some true →
      (getArgOptions f doc true).nargs = Option.some "*" ∧
      ∃ d, (argOptionsPre f doc true).default = Option.some d ∧
        (getArgOptions f doc true).default = Option.some (Value.list [d])) := by
  have hne1 : ¬ f.init = false := by simp [hinit]
  have hpre : argOptionsPre f doc true = argOptionsBody f doc true := by
    unfold argOptionsPre
    rw [if_neg hne1, if_neg hdc, if_neg hldc]
  have hga : getArgOptions f doc true = multipleFinalize (argOptionsBody f doc true) := by
    unfold getArgOptions
    rw [if_neg hne1, if_neg hdc, if_neg hldc, if_pos rfl]
  rw [hpre, hga]
  constructor
  · intro hreq
    exact multipleFinalize_required_case hreq
  · intro hreq
    rcases argOptionsBody_invariant f doc true with h | ⟨hr, d, hd⟩
    · exact absurd h hreq
    · obtain ⟨hn, hdf⟩ := multipleFinalize_optional_case
        (o := argOptionsBody f doc true) (by rw [hr]; rfl)
      exact ⟨hn, d, hd, by rw [hdf, hd]; rfl⟩

/-- C4 witness: the defaultless scalar field is required, so multiple mode
forces `nargs = "+"`; the defaulted scalar field is optional, so multiple
mode forces `nargs = "*"` and default `[7]`. -/
theorem claim_C4_witness :
    (argOptionsPre fX Option.none true).required = Option.some true ∧
    (getArgOptions fX Option.none true).nargs = Option.some "+" ∧
    (getArgOptions fScalarD Option.none true).nargs = Option.some "*" ∧
    (getArgOptions fScalarD Option.none true).default =
      Option.some (Value.list [Value.int 7]) := by
  refine ⟨rfl, ?_, ?_, ?_⟩
  · exact ((claim_C4 fX Option.none rfl (fun h => FieldType.noConfusion h)
      (fun h => FieldType.noConfusion h)).1 rfl).1
  · exact ((claim_C4 fScalarD Option.none rfl (fun h => FieldType.noConfusion h)
      (fun h => FieldType.noConfusion h)).2
        (fun h => Option.noConfusion h)).1
  · obtain ⟨d, hd, hres⟩ := ((claim_C4 fScalarD Option.none rfl
      (fun h => FieldType.noConfusion h)
      (fun h => FieldType.noConfusion h)).2
        (fun h => Option.noConfusion h)).2
    have hd2 : Option.some (Value.int 7) = Option.some d := hd
    rw [← Option.some.inj hd2] at hres
    exact hres

/-- C1: in multiple mode (`num > 1`), for a constructible field that is not
a nested dataclass whose raw value is a list: a length-1 list is broadcast
(its element keyed under the field name in every returned dict), a
length-`num` list is distributed positionally (element i in dict i), and
any other length makes `get_constructor_arguments` raise
`InconsistentArgumentError` carrying the field name, the actual length and
the requested instance count (provided the remaining fields are themselves
processable, so that the loop reaches a verdict on this field). -/
theorem claim_C1 (dw : DataclassWrapper) (args : Dict) (num : Nat)
    (fw : FieldWrapper) (xs : List Value)
    (hm : dw._multiple = true)
    (hmem : fw ∈ dw.fields)
    (hinit : fw.field.init = true)
    (hdc : fw.field.type ≠ FieldType.dataclassT)
    (hldc : fw.field.type ≠ FieldType.listOfDataclasses)
    (hval : dictLookup args fw.name = Option.some (Value.list xs)) :
    ((dw.fields.map (fun g => g.field.name)).Nodup →
      ∀ ds, dw.getConstructorArguments args num = Except.ok ds →
        (xs.length = 1 →
          ∀ d ∈ ds, dictLookup d fw.field.name = Option.some (xs.getD 0 Value.none)) ∧
        (xs.length = num → ∀ i, i < ds.length →
          dictLookup (ds.getD i []) fw.field.name =
            Option.some (xs.getD i Value.none))) ∧
    (xs.length ≠ 1 → xs.length ≠ num → 1 < num →
      (∀ g ∈ dw.fields, g ≠ fw → fieldOkMultiple num args g) →
      dw.getConstructorArguments args num =
        Except.error (ParseError.inconsistentArgument fw.field.name xs.length num)) := by
  constructor
  · intro hnodup ds hok
    obtain ⟨hn1, hbuild⟩ := getConstructorArguments_ok_multiple hm hok
    constructor
    · intro hx1 d hd
      obtain ⟨j, hj⟩ := buildInstances_mem hbuild hd
      obtain ⟨value, v, hlv, hins, hlook⟩ :=
        processFields_field_value hj hmem hnodup hinit hdc hldc
      rw [hval] at hlv
      rw [← Option.some.inj hlv] at hins
      have hred : insertedValue true num j (Value.list xs) =
          if xs.length = 1 then Option.some (xs.getD 0 Value.none)
          else if xs.length = num then Option.some (xs.getD j Value.none)
          else Option.none := rfl
      rw [hred, if_pos hx1] at hins
      rw [← Option.some.inj hins] at hlook
      exact hlook
    · intro hxn i hi
      obtain ⟨hlen, hall⟩ := buildInstances_ok hbuild
      have hj := hall i (by rw [← hlen]; exact hi)
      rw [Nat.zero_add] at hj
      obtain ⟨value, v, hlv, hins, hlook⟩ :=
        processFields_field_value hj hmem hnodup hinit hdc hldc
      rw [hval] at hlv
      rw [← Option.some.inj hlv] at hins
      have hx1 : xs.length ≠ 1 := by rw [hxn]; omega
      have hred : insertedValue true num i (Value.list xs) =
          if xs.length = 1 then Option.some (xs.getD 0 Value.none)
          else if xs.length = num then Option.some (xs.getD i Value.none)
          else Option.none := rfl
      rw [hred, if_neg hx1, if_pos hxn] at hins
      rw [← Option.some.inj hins] at hlook
      exact hlook
  · intro hx1 hxn hn hgood
    obtain ⟨k, rfl⟩ : ∃ k, num = k + 1 := ⟨num - 1, by omega⟩
    unfold DataclassWrapper.getConstructorArguments
    rw [hm, if_pos rfl, if_pos hn]
    exact buildInstances_error
      (processFields_inconsistent hmem hgood hinit hdc hldc hval hx1 hxn [])

/-- C1 witness: with three instances requested, the single-field wrapper
broadcasts `[7]`, distributes `[1,2,3]` positionally, and raises
`InconsistentArgumentError` on `[1,2]`. -/
theorem claim_C1_witness :
    dictLookup [("x", Value.int 7)] "x" = Option.some (Value.int 7) ∧
    dictLookup [("x", Value.int 2)] "x" = Option.some (Value.int 2) ∧
    dwX.getConstructorArguments [("x", Value.list [Value.int 1, Value.int 2])] 3 =
      Except.error (ParseError.inconsistentArgument "x" 2 3) := by
  refine ⟨?_, ?_, ?_⟩
  · have h := (claim_C1 dwX [("x", Value.list [Value.int 7])] 3 fwX
      [Value.int 7] rfl (List.mem_cons_self fwX [])
      rfl (fun h => FieldType.noConfusion h) (fun h => FieldType.noConfusion h)
      rfl).1 (by decide) [[("x", Value.int 7)], [("x", Value.int 7)], [("x", Value.int 7)]] rfl
    exact h.1 rfl [("x", Value.int 7)] (List.mem_cons_self _ _)
  · have h := (claim_C1 dwX
      [("x", Value.list [Value.int 1, Value.int 2, Value.int 3])] 3 fwX
      [Value.int 1, Value.int 2, Value.int 3] rfl (List.mem_cons_self fwX [])
      rfl (fun h => FieldType.noConfusion h) (fun h => FieldType.noConfusion h)
      rfl).1 (by decide)
      [[("x", Value.int 1)], [("x", Value.int 2)], [("x", Value.int 3)]] rfl
    exact h.2 rfl 1 (by decide)
  · exact (claim_C1 dwX [("x", Value.list [Value.int 1, Value.int 2])] 3 fwX
      [Value.int 1, Value.int 2] rfl (List.mem_cons_self fwX [])
      rfl (fun h => FieldType.noConfusion h) (fun h => FieldType.noConfusion h)
      rfl).2 (by simp) (by simp) (by omega)
      (fun g hg hne => absurd (List.mem_singleton.mp hg) hne)

/-- C9: enumeration round trip — if instantiation succeeds on an argument
dict that maps an enumeration field's name to a member's name string, the
constructed instance holds exactly that member for the field. -/
theorem claim_C9 (dw : DataclassWrapper) (args r : Dict) (fw : FieldWrapper)
    (members : List String) (n : String)
    (hnodup : (dw.fields.map (fun g => g.field.name)).Nodup)
    (hmem : fw ∈ dw.fields)
    (htype : fw.field.type = FieldType.enumeration members)
    (hinit : fw.field.init = true)
    (hn : n ∈ members)
    (hlook : dictLookup args fw.field.name = Option.some (Value.str n))
    (hok : dw.instantiateDataclass args = Except.ok r) :
    dictLookup r fw.field.name = Option.some (Value.enumMember n) := by
  obtain ⟨value, v, hlv, hmv, hres⟩ :=
    instantiateFields_field_value hok hmem hnodup hinit
  rw [hlook] at hlv
  rw [← Option.some.inj hlv] at hmv
  have hcomp : materializeValue fw.field (Value.str n) =
      Except.ok (Value.enumMember n) := by
    simp [materializeValue, htype, hn]
  rw [hcomp] at hmv
  rw [← Except.ok.inj hmv] at hres
  exact hres

/-- C9 witness: instantiating the enumeration field from the name string
"GREEN" yields the GREEN member. -/
theorem claim_C9_witness :
    dictLookup [("color", Value.enumMember "GREEN")] "color" =
      Option.some (Value.enumMember "GREEN") :=
  claim_C9 dwColor [("color", Value.str "GREEN")]
    [("color", Value.enumMember "GREEN")] fwColor ["RED", "GREEN"] "GREEN"
    (by decide) (List.mem_cons_self _ _) rfl rfl (by decide) rfl rfl

/-- C10: `get_constructor_arguments` reads a constructible, non-dataclass
field's raw value under its prefixed name — a missing key makes the call
fail — while every returned per-instance dict keys the field under its
unprefixed declared name (and, outside multiple mode, binds it to exactly
the raw value found under the prefixed name). -/
theorem claim_C10 (dw : DataclassWrapper) (args : Dict) (num : Nat)
    (fw : FieldWrapper)
    (hmem : fw ∈ dw.fields)
    (hinit : fw.field.init = true)
    (hdc : fw.field.type ≠ FieldType.dataclassT)
    (hldc : fw.field.type ≠ FieldType.listOfDataclasses) :
    (dictLookup args fw.name = Option.none →
      ∀ ds, dw.getConstructorArguments args num ≠ Except.ok ds) ∧
    ((dw.fields.map (fun g => g.field.name)).Nodup →
      ∀ ds, dw.getConstructorArguments args num = Except.ok ds →
        (∀ d ∈ ds, ∃ v, dictLookup d fw.field.name = Option.some v) ∧
        (dw._multiple = false → ∀ d ∈ ds,
          dictLookup d fw.field.name = dictLookup args fw.name)) := by
  constructor
  · intro hmiss ds hok
    obtain ⟨hpos, hbuild⟩ := getConstructorArguments_ok_any hok
    have h0 := (buildInstances_ok hbuild).2 0 hpos
    rw [Nat.zero_add] at h0
    exact processFields_missing_key hmem hinit hdc hldc hmiss [] (ds.getD 0 []) h0
  · intro hnodup ds hok
    obtain ⟨hpos, hbuild⟩ := getConstructorArguments_ok_any hok
    constructor
    · intro d hd
      obtain ⟨j, hj⟩ := buildInstances_mem hbuild hd
      obtain ⟨value, v, hlv, hins, hlook⟩ :=
        processFields_field_value hj hmem hnodup hinit hdc hldc
      exact ⟨v, hlook⟩
    · intro hmf d hd
      rw [hmf] at hbuild
      obtain ⟨j, hj⟩ := buildInstances_mem hbuild hd
      obtain ⟨value, v, hlv, hins, hlook⟩ :=
        processFields_field_value hj hmem hnodup hinit hdc hldc
      have hvv : Option.some value = Option.some v := hins
      rw [hlook, hlv, ← Option.some.inj hvv]

/-- C10 witness: with the prefix "pre.", the raw value must be found under
"pre.x" (its absence fails the call) and the returned dict keys the value
under the bare name "x". -/
theorem claim_C10_witness :
    dwP.getConstructorArguments [("x", Value.int 7)] 1 ≠
      Except.ok [[("x", Value.int 7)]] ∧
    dictLookup [("x", Value.int 7)] "x" =
      dictLookup [("pre.x", Value.int 7)] "pre.x" := by
  constructor
  · exact (claim_C10 dwP [("x", Value.int 7)] 1 fwP (List.mem_cons_self _ _)
      rfl (fun h => FieldType.noConfusion h)
      (fun h => FieldType.noConfusion h)).1 rfl [[("x", Value.int 7)]]
  · exact ((claim_C10 dwP [("pre.x", Value.int 7)] 1 fwP (List.mem_cons_self _ _)
      rfl (fun h => FieldType.noConfusion h)
      (fun h => FieldType.noConfusion h)).2 (by decide) [[("x", Value.int 7)]] rfl).2
      rfl [("x", Value.int 7)] (List.mem_cons_self _ _)

end SimpleParsing
